import Mathlib

/-!
Shallow embedding of the Kademlia toy DHT (`src/main.rs`).

Modelling conventions:
* Rust `u8` bytes become `Nat`; the only byte operations used are XOR and
  `<`-comparison, on which `u8` and `Nat` agree (XOR of values below 256
  stays below 256, so no overflow is possible).
* `NodeId([u8; 20])` becomes a structure bundling a byte list with the
  length-20 constraint of the fixed-size array.
* `Vec::sort_by` is a stable sort; any two stable sorts with the same
  comparator agree extensionally, so it is embedded as Mathlib's stable
  `List.insertionSort` over the comparator-induced relation.
* `HashMap` is embedded as an association list; the source only ever uses
  `insert` / `get` / `get_mut` / `contains_key` on its maps, never
  iteration, so iteration order cannot be observed.
* The `for _step in 0..MAX_STEPS` lookup loops become fuel recursion with
  fuel `MAX_STEPS`; the fueled runners additionally return the number of
  rounds that actually issued RPCs, which the source loop does implicitly.
-/

/-- Kademlia bucket size (`const K: usize = 8`). -/
def K : Nat := 8

/-- Per-round concurrency factor (`const ALPHA: usize = 3`). -/
def ALPHA : Nat := 3

/-- Maximum lookup rounds (`const MAX_STEPS: usize = 8`). -/
def MAX_STEPS : Nat := 8

/-- A 160-bit identifier: 20 bytes (`struct NodeId([u8; 20])`). -/
structure NodeId where
  bytes : List Nat
  wf : bytes.length = 20

instance : DecidableEq NodeId := fun a b =>
  if h : a.bytes = b.bytes then
    isTrue (by cases a; cases b; cases h; rfl)
  else
    isFalse (by intro e; cases e; exact h rfl)

/-- Build a `NodeId` from a (short) byte list, padding with zeros to 20
bytes; convenience constructor for concrete identifiers. -/
def padId (l : List Nat) : NodeId :=
  ⟨(l ++ List.replicate 20 0).take 20, by
    simp [List.length_take]⟩

/-- `NodeId::xor_distance`: bytewise XOR, big-endian distance. -/
def NodeId.xor_distance (a b : NodeId) : List Nat :=
  List.zipWith (fun x y => x ^^^ y) a.bytes b.bytes

/-- `compare_distances`: lexicographic (big-endian) comparison of two
distances, exactly the source's loop over indices `0..20`. -/
def compare_distances : List Nat → List Nat → Ordering
  | a :: as, b :: bs =>
    if a < b then Ordering.lt
    else if b < a then Ordering.gt
    else compare_distances as bs
  | _, _ => Ordering.eq

/-- The "not greater" relation induced by `compare_distances` on distances
to a fixed target; `sort_by` with the source comparator is the stable sort
by this relation. -/
def distLE (t a b : NodeId) : Prop :=
  compare_distances (NodeId.xor_distance t a) (NodeId.xor_distance t b) ≠ Ordering.gt

instance (t : NodeId) : DecidableRel (distLE t) := fun a b => by
  unfold distLE
  infer_instance

/-- The sort the source performs in `rpc_find_node` and `closest_k`:
stable sort of node ids by distance to the target. -/
def sortByDistance (t : NodeId) (l : List NodeId) : List NodeId :=
  List.insertionSort (distLE t) l

/-- `HashMap::insert` on the local store, as update-or-append on an
association list. -/
def storageInsert : List (List Nat × List Nat) → List Nat → List Nat →
    List (List Nat × List Nat)
  | [], key, value => [(key, value)]
  | (k, v) :: rest, key, value =>
    if k = key then (k, value) :: rest else (k, v) :: storageInsert rest key value

/-- `HashMap::get` on the local store. -/
def storageGet : List (List Nat × List Nat) → List Nat → Option (List Nat)
  | [], _ => none
  | (k, v) :: rest, key => if k = key then some v else storageGet rest key

/-- `Iterator::position(|p| p == peer)`: index of the first occurrence. -/
def positionOf (peer : NodeId) : List NodeId → Option Nat
  | [] => none
  | p :: rest => if p = peer then some 0 else (positionOf peer rest).map (· + 1)

/-- `struct Node`: id, local key/value store, flat LRU peer list. -/
structure Node where
  id : NodeId
  storage : List (List Nat × List Nat)
  peers : List NodeId
deriving DecidableEq

/-- `Node::track_peer`: LRU update of the peer list — no-op on self,
move-to-back for a known peer, append for a new peer evicting the front
entry when the list exceeds `K`. -/
def Node.track_peer (n : Node) (peer : NodeId) : Node :=
  if peer = n.id then n
  else
    match positionOf peer n.peers with
    | some pos => { n with peers := n.peers.eraseIdx pos ++ [peer] }
    | none =>
      let ps := n.peers ++ [peer]
      { n with peers := if ps.length > K then ps.eraseIdx 0 else ps }

/-- `Node::rpc_ping`. -/
def Node.rpc_ping (n : Node) (caller : NodeId) : Node × Bool :=
  (n.track_peer caller, true)

/-- `Node::rpc_store`. -/
def Node.rpc_store (n : Node) (caller : NodeId) (key value : List Nat) : Node :=
  let n1 := n.track_peer caller
  { n1 with storage := storageInsert n1.storage key value }

/-- `Node::rpc_find_value`. -/
def Node.rpc_find_value (n : Node) (caller : NodeId) (key : List Nat) :
    Node × Option (List Nat) :=
  let n1 := n.track_peer caller
  (n1, storageGet n1.storage key)

/-- `Node::rpc_find_node`: track the caller, then return the up-to-`K`
known peers closest to `target`. -/
def Node.rpc_find_node (n : Node) (caller target : NodeId) : Node × List NodeId :=
  let n1 := n.track_peer caller
  (n1, (sortByDistance target n1.peers).take K)

/-- `struct Network`: the registry of nodes, keyed by id. -/
structure Network where
  nodes : List (NodeId × Node)
deriving DecidableEq

/-- `HashMap::get` on the node registry. -/
def lookupNode : List (NodeId × Node) → NodeId → Option Node
  | [], _ => none
  | (k, n) :: rest, id => if k = id then some n else lookupNode rest id

/-- Writing back through `HashMap::get_mut`: replace the entry at a key. -/
def updateNode : List (NodeId × Node) → NodeId → Node → List (NodeId × Node)
  | [], _, _ => []
  | (k, n) :: rest, id, n' =>
    if k = id then (k, n') :: rest else (k, n) :: updateNode rest id n'

/-- Modelled from the spec: `Network::key_to_id` hashes a key with SHA-1
(the external `sha1` crate, not part of this repository); the spec only
requires "a deterministic one-way hash" used consistently for storage and
lookup, so it is modelled as a fixed deterministic map from byte keys to
20-byte identifiers. -/
def Network.key_to_id (key : List Nat) : NodeId :=
  padId (key.map (· % 256))

/-- `Network::snapshot_peers`. -/
def Network.snapshot_peers (net : Network) (id : NodeId) : List NodeId :=
  match lookupNode net.nodes id with
  | some n => n.peers
  | none => []

/-- `Network::closest_k`: sort candidates by distance to target, keep `K`. -/
def Network.closest_k (target : NodeId) (candidates : List NodeId) : List NodeId :=
  (sortByDistance target candidates).take K

/-- `Network::ping`: forward to the target node, `none` if absent. -/
def Network.ping (net : Network) (fromId toId : NodeId) : Network × Option Bool :=
  match lookupNode net.nodes toId with
  | none => (net, none)
  | some n =>
    let (n', r) := n.rpc_ping fromId
    ({ nodes := updateNode net.nodes toId n' }, some r)

/-- `Network::store`. -/
def Network.store (net : Network) (fromId toId : NodeId) (key value : List Nat) :
    Network × Option Unit :=
  match lookupNode net.nodes toId with
  | none => (net, none)
  | some n =>
    ({ nodes := updateNode net.nodes toId (n.rpc_store fromId key value) }, some ())

/-- `Network::find_value`. -/
def Network.find_value (net : Network) (fromId toId : NodeId) (key : List Nat) :
    Network × Option (Option (List Nat)) :=
  match lookupNode net.nodes toId with
  | none => (net, none)
  | some n =>
    let (n', r) := n.rpc_find_value fromId key
    ({ nodes := updateNode net.nodes toId n' }, some r)

/-- `Network::find_node`. -/
def Network.find_node (net : Network) (fromId toId targetId : NodeId) :
    Network × Option (List NodeId) :=
  match lookupNode net.nodes toId with
  | none => (net, none)
  | some n =>
    let (n', r) := n.rpc_find_node fromId targetId
    ({ nodes := updateNode net.nodes toId n' }, some r)

/-- One forwarded RPC, with arbitrary caller and target. -/
inductive Op where
  | ping (fromId toId : NodeId)
  | store (fromId toId : NodeId) (key value : List Nat)
  | findValue (fromId toId : NodeId) (key : List Nat)
  | findNode (fromId toId targetId : NodeId)

/-- Apply one RPC to the network, discarding the reply. -/
def applyOp (net : Network) : Op → Network
  | Op.ping f t => (net.ping f t).1
  | Op.store f t k v => (net.store f t k v).1
  | Op.findValue f t k => (net.find_value f t k).1
  | Op.findNode f t tg => (net.find_node f t tg).1

/-- Run a sequence of RPCs. -/
def Network.run (net : Network) (ops : List Op) : Network :=
  ops.foldl applyOp net

/-- Working state of one iterative lookup: the mutated network, the
`queried` list and the `shortlist`. -/
structure LookupState where
  net : Network
  queried : List NodeId
  shortlist : List NodeId
deriving DecidableEq

/-- The per-round batch: the first `ALPHA` shortlist entries not yet
queried (the source's push-and-break loop computes exactly this). -/
def selectBatch (queried shortlist : List NodeId) : List NodeId :=
  (shortlist.filter (fun n => !decide (n ∈ queried))).take ALPHA

/-- Merge returned neighbors into the shortlist: append each id not
already present, in order. -/
def mergeNew (shortlist : List NodeId) : List NodeId → List NodeId
  | [] => shortlist
  | m :: ms => mergeNew (if m ∈ shortlist then shortlist else shortlist ++ [m]) ms

/-- The body of one `iterative_find_node` round over its batch: query each
peer, merge the neighbors it returns, re-sort/truncate, and accumulate the
`any_progress` flag (set when the re-sort/truncate changed the list). -/
def runBatch (start target : NodeId) : LookupState → List NodeId → Bool →
    LookupState × Bool
  | st, [], prog => (st, prog)
  | st, n :: rest, prog =>
    let q' := st.queried ++ [n]
    match st.net.find_node start n target with
    | (net', some neighbors) =>
      let merged := mergeNew st.shortlist neighbors
      let sl' := Network.closest_k target merged
      runBatch start target { net := net', queried := q', shortlist := sl' } rest
        (prog || decide (sl' ≠ merged))
    | (net', none) =>
      runBatch start target { net := net', queried := q', shortlist := st.shortlist }
        rest prog

/-- The fueled `for _step in 0..MAX_STEPS` loop of `iterative_find_node`;
also counts the rounds that issued RPCs. -/
def findNodeRounds (start target : NodeId) : Nat → LookupState → LookupState × Nat
  | 0, st => (st, 0)
  | fuel + 1, st =>
    let batch := selectBatch st.queried st.shortlist
    if batch = [] then (st, 0)
    else
      let (st', progr) := runBatch start target st batch false
      if progr then
        let (st'', c) := findNodeRounds start target fuel st'
        (st'', c + 1)
      else (st', 1)

/-- Shortlist initialization shared by all three lookups: the start node's
peers, plus the start node itself if absent, sorted and truncated to `K`. -/
def lookupInit (net : Network) (start target : NodeId) : LookupState :=
  let sl0 := net.snapshot_peers start
  let sl1 := if start ∈ sl0 then sl0 else sl0 ++ [start]
  { net := net, queried := [], shortlist := Network.closest_k target sl1 }

/-- `Network::iterative_find_node`, returning the final loop state and the
number of executed rounds. -/
def Network.iterative_find_node_full (net : Network) (start target : NodeId) :
    LookupState × Nat :=
  findNodeRounds start target MAX_STEPS (lookupInit net start target)

/-- `Network::iterative_find_node`: the mutated network and the up-to-`K`
closest ids found. -/
def Network.iterative_find_node (net : Network) (start target : NodeId) :
    Network × List NodeId :=
  let (st, _) := net.iterative_find_node_full start target
  (st.net, Network.closest_k target st.shortlist)

/-- The body of one `iterative_find_value` round over its batch: query
`find_value` first (returning the value immediately if found, short-circuiting
the rest of the batch), else also query `find_node` and merge. -/
def runBatchFV (start : NodeId) (key : List Nat) (keyId : NodeId) :
    LookupState → List NodeId → Bool → (LookupState × Bool) × Option (List Nat)
  | st, [], prog => ((st, prog), none)
  | st, n :: rest, prog =>
    let q' := st.queried ++ [n]
    match st.net.find_value start n key with
    | (net1, some (some value)) =>
      (({ net := net1, queried := q', shortlist := st.shortlist }, prog), some value)
    | (net1, _) =>
      let st1 : LookupState := { net := net1, queried := q', shortlist := st.shortlist }
      match st1.net.find_node start n keyId with
      | (net2, some neighbors) =>
        let merged := mergeNew st1.shortlist neighbors
        let sl' := Network.closest_k keyId merged
        runBatchFV start key keyId { net := net2, queried := q', shortlist := sl' }
          rest (prog || decide (sl' ≠ merged))
      | (net2, none) =>
        runBatchFV start key keyId { st1 with net := net2 } rest prog

/-- The fueled loop of `iterative_find_value`, with a round count. -/
def findValueRounds (start : NodeId) (key : List Nat) (keyId : NodeId) :
    Nat → LookupState → (LookupState × Option (List Nat)) × Nat
  | 0, st => ((st, none), 0)
  | fuel + 1, st =>
    let batch := selectBatch st.queried st.shortlist
    if batch = [] then ((st, none), 0)
    else
      match runBatchFV start key keyId st batch false with
      | ((st', _), some v) => ((st', some v), 1)
      | ((st', progr), none) =>
        if progr then
          let ((st'', r), c) := findValueRounds start key keyId fuel st'
          ((st'', r), c + 1)
        else ((st', none), 1)

/-- `Network::iterative_find_value`, returning the final state, the result
and the number of executed rounds. -/
def Network.iterative_find_value_full (net : Network) (start : NodeId)
    (key : List Nat) : (LookupState × Option (List Nat)) × Nat :=
  let keyId := Network.key_to_id key
  findValueRounds start key keyId MAX_STEPS (lookupInit net start keyId)

/-- `Network::iterative_find_value`: the mutated network and the value, if
any queried peer held it. -/
def Network.iterative_find_value (net : Network) (start : NodeId) (key : List Nat) :
    Network × Option (List Nat) :=
  let ((st, r), _) := net.iterative_find_value_full start key
  (st.net, r)

/-- `Network::iterative_store`: locate the `K` closest nodes to the key's
id, then issue a `store` RPC to each. -/
def Network.iterative_store (net : Network) (start : NodeId) (key value : List Nat) :
    Network :=
  let keyId := Network.key_to_id key
  let (net1, closest) := net.iterative_find_node start keyId
  closest.foldl (fun acc target => (acc.store start target key value).1) net1

/-- Per-node routing-table invariant: the table never contains the owning
node's own id and never exceeds `K` entries. -/
def NodeInv (n : Node) : Prop := n.id ∉ n.peers ∧ n.peers.length ≤ K

instance : DecidablePred NodeInv := fun n => by
  unfold NodeInv
  infer_instance

/-- Network-wide routing-table invariant. -/
def NetInv (net : Network) : Prop := ∀ p ∈ net.nodes, NodeInv p.2

instance : DecidablePred NetInv := fun net => by
  unfold NetInv
  infer_instance

/-- Node with the given id and peers, empty storage. -/
def mkNode (i : NodeId) (ps : List NodeId) : Node :=
  { id := i, storage := [], peers := ps }

/-! Concrete identifiers and fixtures used by witnesses and
counterexamples. -/

def idZ : NodeId := padId []

def idA : NodeId := padId [1]

def idB : NodeId := padId [2]

def idC : NodeId := padId [255]

/-- A node whose routing table is full (`K = 8` peers). -/
def nFull : Node :=
  mkNode idZ [padId [1], padId [2], padId [3], padId [4],
              padId [5], padId [6], padId [7], padId [8]]

/-- A fresh peer not in `nFull`'s table. -/
def idNew : NodeId := padId [9]

/-- A node with an empty routing table. -/
def nEmpty : Node := mkNode idZ []

/-- Three-node line for the progress-check counterexample: `idA` knows
`idB`, `idB` knows `idC`, `idC` knows nobody; `idA` is closest to the
all-zero target, `idC` farthest. -/
def netC5 : Network :=
  { nodes := [(idA, mkNode idA [idB]), (idB, mkNode idB [idC]), (idC, mkNode idC [])] }

/-- A network holding a single node with no peers. -/
def netSingle : Network := { nodes := [(idA, mkNode idA [])] }

/-- Two mutually unknown nodes. -/
def netTwo : Network := { nodes := [(idA, mkNode idA []), (idB, mkNode idB [])] }

/-- A single node that locally holds the key `[1] ↦ [2]`. -/
def netVal : Network :=
  { nodes := [(idA, { id := idA, storage := [([1], [2])], peers := [] })] }

def idN0 : NodeId := padId [10]

def idN1 : NodeId := padId [20]

def idN2 : NodeId := padId [30]

def keyHello : List Nat := [104, 101, 108, 108, 111]

def valWorld : List Nat := [119, 111, 114, 108, 100]

/-- The three fresh nodes of the `main` scenario. -/
def netScenario0 : Network :=
  { nodes := [(idN0, mkNode idN0 []), (idN1, mkNode idN1 []), (idN2, mkNode idN2 [])] }

/-- After the bootstrap pings of `main`: node 0 learns nodes 1 and 2, node
1 learns node 2. -/
def netScenario1 : Network :=
  (((netScenario0.ping idN1 idN0).1.ping idN2 idN0).1.ping idN2 idN1).1

/-- After `iterative_store` of "hello" ↦ "world" issued from node 1. -/
def netScenario2 : Network := netScenario1.iterative_store idN1 keyHello valWorld

/-! ## Order lemmas for the distance comparator -/

theorem compare_distances_gt_iff_lt :
    ∀ a b : List Nat,
      compare_distances a b = Ordering.gt ↔ compare_distances b a = Ordering.lt := by
  intro a
  induction a with
  | nil => intro b; cases b <;> simp [compare_distances]
  | cons x xs ih =>
    intro b
    cases b with
    | nil => simp [compare_distances]
    | cons y ys =>
      simp only [compare_distances]
      rcases Nat.lt_trichotomy x y with h | h | h
      · simp [h, Nat.lt_asymm h]
      · subst h
        simp [Nat.lt_irrefl, ih ys]
      · simp [h, Nat.lt_asymm h]

theorem compare_distances_le_trans :
    ∀ a b c : List Nat, a.length = b.length → b.length = c.length →
      compare_distances a b ≠ Ordering.gt → compare_distances b c ≠ Ordering.gt →
      compare_distances a c ≠ Ordering.gt := by
  intro a
  induction a with
  | nil =>
    intro b c _ _ _ _
    cases c <;> simp [compare_distances]
  | cons x xs ih =>
    intro b c hab hbc h1 h2
    cases b with
    | nil => simp at hab
    | cons y ys =>
      cases c with
      | nil => simp at hbc
      | cons z zs =>
        simp only [compare_distances] at h1 h2 ⊢
        by_cases hxy : x < y
        · by_cases hyz : y < z
          · simp [Nat.lt_trans hxy hyz]
          · by_cases hzy : z < y
            · simp [hyz, hzy] at h2
            · have hyz2 : y = z := Nat.le_antisymm (Nat.not_lt.mp hzy) (Nat.not_lt.mp hyz)
              subst hyz2
              simp [hxy]
        · by_cases hyx : y < x
          · simp [hxy, hyx] at h1
          · have hxy2 : x = y := Nat.le_antisymm (Nat.not_lt.mp hyx) (Nat.not_lt.mp hxy)
            subst hxy2
            simp only [Nat.lt_irrefl, if_false, if_neg] at h1
            by_cases hxz : x < z
            · simp [hxz]
            · by_cases hzx : z < x
              · simp [hxz, hzx] at h2
              · have hxz2 : x = z := Nat.le_antisymm (Nat.not_lt.mp hzx) (Nat.not_lt.mp hxz)
                subst hxz2
                simp only [Nat.lt_irrefl, if_false, if_neg] at h2 ⊢
                exact ih ys zs (by simpa using hab) (by simpa using hbc) h1 h2

theorem xor_distance_length (a b : NodeId) : (a.xor_distance b).length = 20 := by
  simp [NodeId.xor_distance, a.wf, b.wf]

instance (t : NodeId) : IsTotal NodeId (distLE t) := ⟨by
  intro a b
  unfold distLE
  by_cases h : compare_distances (t.xor_distance a) (t.xor_distance b) = Ordering.gt
  · right
    rw [compare_distances_gt_iff_lt] at h
    simp [h]
  · left
    exact h⟩

instance (t : NodeId) : IsTrans NodeId (distLE t) := ⟨by
  intro a b c h1 h2
  unfold distLE at h1 h2 ⊢
  exact compare_distances_le_trans _ _ _
    (by rw [xor_distance_length, xor_distance_length])
    (by rw [xor_distance_length, xor_distance_length]) h1 h2⟩

/-! ## Basic frame lemmas for `track_peer` -/

theorem Node.track_peer_storage (n : Node) (p : NodeId) :
    (n.track_peer p).storage = n.storage := by
  unfold Node.track_peer
  split
  · rfl
  · split <;> rfl

theorem Node.track_peer_id (n : Node) (p : NodeId) :
    (n.track_peer p).id = n.id := by
  unfold Node.track_peer
  split
  · rfl
  · split <;> rfl

/-- Claim C10: handling `rpc_ping`, `rpc_find_value` or `rpc_find_node`
returns a node whose local key/value store (and identity) is exactly the
input node's; the only state these handlers change is the peer table, via
`track_peer`. -/
theorem C10_readonly_rpcs_frame :
    ∀ (n : Node) (caller : NodeId) (key : List Nat) (target : NodeId),
      (n.rpc_ping caller).1 = n.track_peer caller ∧
      (n.rpc_find_value caller key).1 = n.track_peer caller ∧
      (n.rpc_find_node caller target).1 = n.track_peer caller ∧
      (n.track_peer caller).storage = n.storage ∧
      (n.track_peer caller).id = n.id := by
  intro n caller key target
  exact ⟨rfl, rfl, rfl, n.track_peer_storage caller, n.track_peer_id caller⟩

theorem zipWith_xor_self :
    ∀ l : List Nat, List.zipWith (fun x y => x ^^^ y) l l = List.replicate l.length 0 := by
  intro l
  induction l with
  | nil => rfl
  | cons x xs ih => simp [List.replicate, ih, Nat.xor_self]

/-- Claim C9: the XOR metric satisfies `xor_distance a a = 0…0` (the
all-zero 20-byte distance) and is commutative. -/
theorem C9_xor_metric_laws :
    (∀ a : NodeId, a.xor_distance a = List.replicate 20 0) ∧
    (∀ a b : NodeId, a.xor_distance b = b.xor_distance a) := by
  constructor
  · intro a
    rw [NodeId.xor_distance, zipWith_xor_self, a.wf]
  · intro a b
    exact List.zipWith_comm_of_comm _ Nat.xor_comm _ _

/-! ## Lemmas about `positionOf`, `eraseIdx` and `track_peer` -/

theorem positionOf_eq_none_iff (peer : NodeId) :
    ∀ l : List NodeId, positionOf peer l = none ↔ peer ∉ l := by
  intro l
  induction l with
  | nil => simp [positionOf]
  | cons p rest ih =>
    simp only [positionOf]
    by_cases h : p = peer
    · simp [h]
    · simp [h, ih, Ne.symm h]

theorem positionOf_spec (peer : NodeId) :
    ∀ (l : List NodeId) (pos : Nat), positionOf peer l = some pos →
      (l.eraseIdx pos).length + 1 = l.length ∧
      (∀ x : NodeId, x ∈ l.eraseIdx pos ++ [peer] ↔ x ∈ l) := by
  intro l
  induction l with
  | nil => intro pos h; simp [positionOf] at h
  | cons p rest ih =>
    intro pos h
    simp only [positionOf] at h
    by_cases hp : p = peer
    · rw [if_pos hp] at h
      injection h with h
      subst h
      subst hp
      refine ⟨by simp, ?_⟩
      intro x
      simp only [List.eraseIdx, List.mem_append, List.mem_cons, List.mem_singleton]
      tauto
    · rw [if_neg hp] at h
      rcases e2 : positionOf peer rest with _ | q
      · rw [e2] at h; simp at h
      · rw [e2] at h
        simp only [Option.map_some'] at h
        injection h with h
        subst h
        obtain ⟨ihlen, ihmem⟩ := ih q e2
        refine ⟨by simpa using ihlen, ?_⟩
        intro x
        simp only [List.eraseIdx, List.cons_append, List.mem_cons]
        rw [ihmem x]

theorem NodeInv_peers (n : Node) (ps : List NodeId) (h1 : n.id ∉ ps)
    (h2 : ps.length ≤ K) : NodeInv { n with peers := ps } :=
  ⟨h1, h2⟩

theorem Node.track_peer_inv (n : Node) (p : NodeId) (h : NodeInv n) :
    NodeInv (n.track_peer p) := by
  obtain ⟨hmem, hlen⟩ := h
  unfold Node.track_peer
  split
  · exact ⟨hmem, hlen⟩
  next hpid =>
    split
    next pos hpos =>
      obtain ⟨hl, hm⟩ := positionOf_spec p n.peers pos hpos
      refine NodeInv_peers n _ ?_ ?_
      · intro hc
        exact hmem ((hm n.id).mp hc)
      · simp only [List.length_append, List.length_singleton]
        omega
    next hpos =>
      have hid : n.id ∉ n.peers ++ [p] := by
        intro hc
        rcases List.mem_append.mp hc with hc | hc
        · exact hmem hc
        · exact hpid ((List.mem_singleton.mp hc).symm)
      by_cases hbig : (n.peers ++ [p]).length > K
      · have hinv : NodeInv { n with peers :=
            if (n.peers ++ [p]).length > K then (n.peers ++ [p]).eraseIdx 0
            else n.peers ++ [p] } := by
          rw [if_pos hbig]
          refine NodeInv_peers n _ ?_ ?_
          · intro hc
            exact hid ((List.eraseIdx_sublist _ 0).subset hc)
          · have := List.length_eraseIdx_of_lt
              (show 0 < (n.peers ++ [p]).length by simp)
            rw [this]
            simp only [List.length_append, List.length_singleton]
            omega
        exact hinv
      · have hinv : NodeInv { n with peers :=
            if (n.peers ++ [p]).length > K then (n.peers ++ [p]).eraseIdx 0
            else n.peers ++ [p] } := by
          rw [if_neg hbig]
          exact NodeInv_peers n _ hid (by omega)
        exact hinv

/-- Claim C2: `track_peer` is a no-op on the owner's own id; promotes an
existing peer to the most-recent (last) position preserving size and
membership; and on a full table (`K` entries) inserts a new peer while
evicting exactly the front (least-recently-touched) entry, leaving size
`K`. -/
theorem C2_touch_postconditions :
    ∀ (n : Node) (peer : NodeId),
      (peer = n.id → n.track_peer peer = n) ∧
      (peer ≠ n.id → peer ∈ n.peers →
        (n.track_peer peer).peers.length = n.peers.length ∧
        (∀ x : NodeId, x ∈ (n.track_peer peer).peers ↔ x ∈ n.peers) ∧
        (n.track_peer peer).peers.getLast? = some peer) ∧
      (peer ≠ n.id → peer ∉ n.peers → n.peers.length = K →
        (n.track_peer peer).peers = n.peers.tail ++ [peer] ∧
        (n.track_peer peer).peers.length = K) := by
  intro n peer
  refine ⟨?_, ?_, ?_⟩
  · intro h
    unfold Node.track_peer
    rw [if_pos h]
  · intro hne hmem
    unfold Node.track_peer
    rw [if_neg hne]
    rcases e : positionOf peer n.peers with _ | pos
    · exact absurd ((positionOf_eq_none_iff peer n.peers).mp e) (by simpa using hmem)
    · obtain ⟨hl, hm⟩ := positionOf_spec peer n.peers pos e
      refine ⟨?_, ?_, ?_⟩
      · simp only [List.length_append, List.length_singleton]
        omega
      · exact hm
      · exact List.getLast?_concat _
  · intro hne hnotin hlen
    have hbig : (n.peers ++ [peer]).length > K := by
      simp only [List.length_append, List.length_singleton, hlen]
      omega
    have hres : (n.track_peer peer).peers = (n.peers ++ [peer]).eraseIdx 0 := by
      unfold Node.track_peer
      rw [if_neg hne, (positionOf_eq_none_iff peer n.peers).mpr hnotin]
      show (if (n.peers ++ [peer]).length > K then (n.peers ++ [peer]).eraseIdx 0
        else n.peers ++ [peer]) = (n.peers ++ [peer]).eraseIdx 0
      rw [if_pos hbig]
    cases hps : n.peers with
    | nil =>
      rw [hps] at hlen
      simp [K] at hlen
    | cons a as =>
      rw [hres, hps]
      rw [hps] at hlen
      refine ⟨by simp, ?_⟩
      simp only [List.cons_append, List.eraseIdx_cons_zero, List.length_append,
        List.length_cons, List.length_nil] at hlen ⊢
      omega

/-- Witness for C2: a full table of 8 peers, touched by a fresh peer,
evicts the front entry and stays at size `K`. -/
theorem C2_touch_postconditions_witness :
    (nFull.track_peer idNew).peers = nFull.peers.tail ++ [idNew] ∧
    (nFull.track_peer idNew).peers.length = K :=
  (C2_touch_postconditions nFull idNew).2.2 (by decide) (by decide) (by decide)

/-! ## Network-level invariant machinery -/

theorem lookupNode_mem :
    ∀ (ns : List (NodeId × Node)) (id : NodeId) (n : Node),
      lookupNode ns id = some n → (id, n) ∈ ns := by
  intro ns
  induction ns with
  | nil => intro id n h; simp [lookupNode] at h
  | cons p rest ih =>
    intro id n h
    obtain ⟨k, m⟩ := p
    simp only [lookupNode] at h
    by_cases hk : k = id
    · rw [if_pos hk] at h
      injection h with h
      subst hk
      subst h
      exact List.mem_cons_self _ _
    · rw [if_neg hk] at h
      exact List.mem_cons_of_mem _ (ih id n h)

theorem updateNode_forall (Q : Node → Prop) :
    ∀ (ns : List (NodeId × Node)) (id : NodeId) (n' : Node),
      (∀ p ∈ ns, Q p.2) → Q n' → ∀ p ∈ updateNode ns id n', Q p.2 := by
  intro ns
  induction ns with
  | nil => intro id n' _ _ p hp; simp [updateNode] at hp
  | cons q rest ih =>
    intro id n' hall hn' p hp
    obtain ⟨k, m⟩ := q
    simp only [updateNode] at hp
    by_cases hk : k = id
    · rw [if_pos hk] at hp
      rcases List.mem_cons.mp hp with hp | hp
      · subst hp; exact hn'
      · exact hall p (List.mem_cons_of_mem _ hp)
    · rw [if_neg hk] at hp
      rcases List.mem_cons.mp hp with hp | hp
      · subst hp; exact hall (k, m) (List.mem_cons_self _ _)
      · exact ih id n' (fun q hq => hall q (List.mem_cons_of_mem _ hq)) hn' p hp

theorem Node.rpc_store_inv (n : Node) (caller : NodeId) (key value : List Nat)
    (h : NodeInv n) : NodeInv (n.rpc_store caller key value) :=
  n.track_peer_inv caller h

theorem applyOp_inv (net : Network) (op : Op) (h : NetInv net) :
    NetInv (applyOp net op) := by
  cases op with
  | ping f t =>
    show NetInv (net.ping f t).1
    unfold Network.ping
    rcases e : lookupNode net.nodes t with _ | n
    · exact h
    · intro p hp
      exact updateNode_forall NodeInv net.nodes t _ h
        ((lookupNode_mem net.nodes t n e |> h (t, n)) |> Node.track_peer_inv n f) p hp
  | store f t k v =>
    show NetInv (net.store f t k v).1
    unfold Network.store
    rcases e : lookupNode net.nodes t with _ | n
    · exact h
    · intro p hp
      exact updateNode_forall NodeInv net.nodes t _ h
        (Node.rpc_store_inv n f k v (h (t, n) (lookupNode_mem net.nodes t n e))) p hp
  | findValue f t k =>
    show NetInv (net.find_value f t k).1
    unfold Network.find_value
    rcases e : lookupNode net.nodes t with _ | n
    · exact h
    · intro p hp
      exact updateNode_forall NodeInv net.nodes t _ h
        (Node.track_peer_inv n f (h (t, n) (lookupNode_mem net.nodes t n e))) p hp
  | findNode f t tg =>
    show NetInv (net.find_node f t tg).1
    unfold Network.find_node
    rcases e : lookupNode net.nodes t with _ | n
    · exact h
    · intro p hp
      exact updateNode_forall NodeInv net.nodes t _ h
        (Node.track_peer_inv n f (h (t, n) (lookupNode_mem net.nodes t n e))) p hp

/-- Claim C1: the routing-table invariant — no node's peer table ever
contains that node's own id, and no table exceeds `K` entries — is
preserved by every sequence of forwarded RPCs (`ping`, `store`,
`find_value`, `find_node`) with arbitrary callers and targets. -/
theorem C1_routing_table_invariant :
    ∀ (net : Network) (ops : List Op), NetInv net → NetInv (net.run ops) := by
  intro net ops
  induction ops generalizing net with
  | nil => intro h; exact h
  | cons op rest ih =>
    intro h
    show NetInv (Network.run (applyOp net op) rest)
    exact ih _ (applyOp_inv net op h)

/-- Witness for C1: starting from two well-formed nodes, a concrete RPC
sequence keeps the invariant. -/
theorem C1_routing_table_invariant_witness :
    NetInv (netTwo.run [Op.ping idA idB, Op.findNode idB idA idZ,
      Op.store idA idB [1] [2], Op.findValue idB idA [1]]) :=
  C1_routing_table_invariant netTwo _ (by decide)

/-! ## `rpc_find_node` result shape (C4) -/

theorem Node.track_peer_not_mem_self (n : Node) (p : NodeId) (h : n.id ∉ n.peers) :
    n.id ∉ (n.track_peer p).peers := by
  unfold Node.track_peer
  split
  · exact h
  next hpid =>
    split
    next pos hpos =>
      obtain ⟨_, hm⟩ := positionOf_spec p n.peers pos hpos
      intro hc
      exact h ((hm n.id).mp hc)
    next hpos =>
      have hid : n.id ∉ n.peers ++ [p] := by
        intro hc
        rcases List.mem_append.mp hc with hc | hc
        · exact h hc
        · exact hpid ((List.mem_singleton.mp hc).symm)
      show n.id ∉ (if (n.peers ++ [p]).length > K then (n.peers ++ [p]).eraseIdx 0
        else n.peers ++ [p])
      split
      · intro hc
        exact hid ((List.eraseIdx_sublist _ 0).subset hc)
      · exact hid

/-- Claim C4, amended: the list returned by `rpc_find_node` is sorted by
non-decreasing XOR distance to the target, has length at most `K` and at
most the routing-table size after the caller has been tracked, and (given
the table invariant) never contains the handling node's own id; the table
being empty after the caller is tracked yields an empty list. (The
original claim's "an empty routing table yields an empty list" fails for
the table before the call, because the caller itself is inserted first and
can be returned — see the counterexample.) -/
theorem C4_find_node_result_shape :
    ∀ (n : Node) (caller target : NodeId), n.id ∉ n.peers →
      List.Sorted (distLE target) (n.rpc_find_node caller target).2 ∧
      (n.rpc_find_node caller target).2.length ≤ K ∧
      (n.rpc_find_node caller target).2.length ≤
        (n.rpc_find_node caller target).1.peers.length ∧
      n.id ∉ (n.rpc_find_node caller target).2 ∧
      ((n.rpc_find_node caller target).1.peers = [] →
        (n.rpc_find_node caller target).2 = []) := by
  intro n caller target h
  have hres : (n.rpc_find_node caller target).2 =
      (sortByDistance target (n.track_peer caller).peers).take K := rfl
  have hfst : (n.rpc_find_node caller target).1 = n.track_peer caller := rfl
  refine ⟨?_, ?_, ?_, ?_, ?_⟩
  · rw [hres]
    exact (List.sorted_insertionSort (distLE target) _).sublist (List.take_sublist K _)
  · rw [hres]
    exact List.length_take_le K _
  · rw [hres, hfst]
    calc ((sortByDistance target (n.track_peer caller).peers).take K).length
        ≤ (sortByDistance target (n.track_peer caller).peers).length :=
          (List.take_sublist K _).length_le
      _ = (n.track_peer caller).peers.length :=
          (List.perm_insertionSort (distLE target) _).length_eq
  · rw [hres]
    intro hc
    have : n.id ∈ sortByDistance target (n.track_peer caller).peers :=
      (List.take_sublist K _).subset hc
    rw [sortByDistance, List.mem_insertionSort] at this
    exact n.track_peer_not_mem_self caller h this
  · rw [hres, hfst]
    intro he
    rw [he]
    rfl

/-- Counterexample to C4 as stated: a node with an *empty* routing table
returns a non-empty list from `rpc_find_node`, because the caller is
tracked into the table before the sort. -/
theorem C4_counterexample :
    nEmpty.peers = [] ∧ (nEmpty.rpc_find_node idA idB).2 = [idA] := by decide

/-- Witness for C4: the amended result-shape properties at a concrete
full-table node. -/
theorem C4_find_node_result_shape_witness :
    List.Sorted (distLE idZ) (nFull.rpc_find_node idNew idZ).2 ∧
    (nFull.rpc_find_node idNew idZ).2.length ≤ K ∧
    (nFull.rpc_find_node idNew idZ).2.length ≤
      (nFull.rpc_find_node idNew idZ).1.peers.length ∧
    nFull.id ∉ (nFull.rpc_find_node idNew idZ).2 ∧
    ((nFull.rpc_find_node idNew idZ).1.peers = [] →
      (nFull.rpc_find_node idNew idZ).2 = []) :=
  C4_find_node_result_shape nFull idNew idZ (by decide)

/-! ## Termination and round bounds (C3) -/

theorem updateNode_self :
    ∀ (ns : List (NodeId × Node)) (id : NodeId) (n : Node),
      lookupNode ns id = some n → updateNode ns id n = ns := by
  intro ns
  induction ns with
  | nil => intro id n _; rfl
  | cons p rest ih =>
    intro id n h
    obtain ⟨k, m⟩ := p
    simp only [lookupNode] at h
    simp only [updateNode]
    by_cases hk : k = id
    · rw [if_pos hk] at h
      injection h with h
      rw [if_pos hk, h]
    · rw [if_neg hk] at h
      rw [if_neg hk, ih id n h]

theorem findNodeRounds_le (start target : NodeId) :
    ∀ (fuel : Nat) (st : LookupState), (findNodeRounds start target fuel st).2 ≤ fuel := by
  intro fuel
  induction fuel with
  | zero => intro st; simp [findNodeRounds]
  | succ f ih =>
    intro st
    unfold findNodeRounds
    dsimp only
    split
    · simp
    · rcases hrb : runBatch start target st (selectBatch st.queried st.shortlist) false
        with ⟨st', progr⟩
      simp only
      split
      · rcases e : findNodeRounds start target f st' with ⟨st'', c⟩
        have := ih st'
        rw [e] at this
        simp only at this ⊢
        omega
      · omega

theorem findValueRounds_le (start : NodeId) (key : List Nat) (keyId : NodeId) :
    ∀ (fuel : Nat) (st : LookupState),
      (findValueRounds start key keyId fuel st).2 ≤ fuel := by
  intro fuel
  induction fuel with
  | zero => intro st; simp [findValueRounds]
  | succ f ih =>
    intro st
    unfold findValueRounds
    dsimp only
    split
    · simp
    · split
      · omega
      next st' progr heq =>
        split
        · rcases e : findValueRounds start key keyId f st' with ⟨⟨st'', r⟩, c⟩
          have := ih st'
          rw [e] at this
          simp only at this ⊢
          omega
        · omega

theorem find_value_self_empty (net : Network) (start : NodeId) (key : List Nat)
    (nd : Node) (hlook : lookupNode net.nodes start = some nd) (hid : nd.id = start)
    (hstore : storageGet nd.storage key = none) :
    net.find_value start start key = (net, some none) := by
  have htrack : nd.track_peer start = nd := by
    unfold Node.track_peer
    rw [if_pos hid.symm]
  unfold Network.find_value
  rw [hlook]
  simp only [Node.rpc_find_value, htrack, hstore]
  rw [updateNode_self _ _ _ hlook]

theorem find_node_self_empty (net : Network) (start : NodeId) (keyId : NodeId)
    (nd : Node) (hlook : lookupNode net.nodes start = some nd) (hid : nd.id = start)
    (hpeers : nd.peers = []) :
    net.find_node start start keyId = (net, some []) := by
  have htrack : nd.track_peer start = nd := by
    unfold Node.track_peer
    rw [if_pos hid.symm]
  unfold Network.find_node
  rw [hlook]
  simp only [Node.rpc_find_node, htrack, hpeers]
  rw [updateNode_self _ _ _ hlook]
  rfl

/-- Claim C3: every iterative lookup terminates within `MAX_STEPS` rounds
(the fueled loops execute at most `MAX_STEPS` RPC-issuing rounds, for every
network, start and target — `iterative_store` runs exactly the
`iterative_find_node` loop); and a lookup issued from a registered node
with zero known peers (and without the key locally) terminates with "not
found". -/
theorem C3_lookup_termination :
    (∀ (net : Network) (start target : NodeId),
      (net.iterative_find_node_full start target).2 ≤ MAX_STEPS) ∧
    (∀ (net : Network) (start : NodeId) (key : List Nat),
      (net.iterative_find_value_full start key).2 ≤ MAX_STEPS) ∧
    (∀ (net : Network) (start : NodeId) (key : List Nat) (nd : Node),
      lookupNode net.nodes start = some nd → nd.id = start → nd.peers = [] →
      storageGet nd.storage key = none →
      (net.iterative_find_value start key).2 = none) := by
  refine ⟨?_, ?_, ?_⟩
  · intro net start target
    exact findNodeRounds_le start target MAX_STEPS _
  · intro net start key
    exact findValueRounds_le start key _ MAX_STEPS _
  · intro net start key nd hlook hid hpeers hstore
    have hsnap : net.snapshot_peers start = [] := by
      unfold Network.snapshot_peers
      rw [hlook]
      exact hpeers
    have hinit : lookupInit net start (Network.key_to_id key) =
        ⟨net, [], [start]⟩ := by
      unfold lookupInit
      rw [hsnap]
      rfl
    have hdec : decide (([start] : List NodeId) ≠ [start]) = false := by simp
    have hrun : runBatchFV start key (Network.key_to_id key)
        ⟨net, [], [start]⟩ [start] false = ((⟨net, [start], [start]⟩, false), none) := by
      unfold runBatchFV
      rw [find_value_self_empty net start key nd hlook hid hstore]
      dsimp only
      rw [find_node_self_empty net start (Network.key_to_id key) nd hlook hid hpeers]
      dsimp only [mergeNew]
      rw [show Network.closest_k (Network.key_to_id key) [start] = [start] from rfl, hdec]
      rfl
    have hrounds : findValueRounds start key (Network.key_to_id key) MAX_STEPS
        ⟨net, [], [start]⟩ = ((⟨net, [start], [start]⟩, none), 1) := by
      show findValueRounds start key (Network.key_to_id key) (7 + 1)
        ⟨net, [], [start]⟩ = _
      unfold findValueRounds
      dsimp only
      rw [show selectBatch ([] : List NodeId) [start] = [start] from rfl] at *
      rw [hrun]
      rfl
    show (net.iterative_find_value start key).2 = none
    unfold Network.iterative_find_value Network.iterative_find_value_full
    dsimp only
    rw [hinit, hrounds]

/-- Witness for C3: the empty-peers conjunct at a concrete one-node
network. -/
theorem C3_lookup_termination_witness :
    (netSingle.iterative_find_value idA [1]).2 = none :=
  C3_lookup_termination.2.2 netSingle idA [1] (mkNode idA []) (by decide) (by decide)
    (by decide) (by decide)

/-- Claim C7: if the `find_value` RPC to the next peer of the batch
returns a value, the lookup returns exactly that value at once: the result
and final state are those of processing that single peer (the remaining
RPCs of the round are never issued), and the resulting network is the one
right after that one `find_value` call. -/
theorem C7_find_value_short_circuit :
    ∀ (start : NodeId) (key : List Nat) (keyId : NodeId) (st : LookupState)
      (n : NodeId) (rest : List NodeId) (prog : Bool) (v : List Nat),
      (st.net.find_value start n key).2 = some (some v) →
      runBatchFV start key keyId st (n :: rest) prog =
        runBatchFV start key keyId st [n] prog ∧
      (runBatchFV start key keyId st (n :: rest) prog).2 = some v ∧
      (runBatchFV start key keyId st (n :: rest) prog).1.1.net =
        (st.net.find_value start n key).1 := by
  intro start key keyId st n rest prog v h
  rcases e : st.net.find_value start n key with ⟨net1, r⟩
  have h2 : r = some (some v) := by rw [e] at h; exact h
  subst h2
  refine ⟨?_, ?_, ?_⟩ <;> unfold runBatchFV <;> rw [e]

/-- Witness for C7: a single node holding `[1] ↦ [2]`; querying it
short-circuits past a stale second batch entry. -/
theorem C7_find_value_short_circuit_witness :
    runBatchFV idA [1] idZ ⟨netVal, [], [idA]⟩ [idA, idB] false =
      runBatchFV idA [1] idZ ⟨netVal, [], [idA]⟩ [idA] false ∧
    (runBatchFV idA [1] idZ ⟨netVal, [], [idA]⟩ [idA, idB] false).2 = some [2] ∧
    (runBatchFV idA [1] idZ ⟨netVal, [], [idA]⟩ [idA, idB] false).1.1.net =
      ((⟨netVal, [], [idA]⟩ : LookupState).net.find_value idA idA [1]).1 :=
  C7_find_value_short_circuit idA [1] idZ ⟨netVal, [], [idA]⟩ idA [idB] false [2]
    (by decide)

/-- Counterexample to C8 as stated: with two mutually unknown nodes,
`iterative_store` from one node stores the value (locally, at the closest
node it can reach — itself), yet `iterative_find_value` from the other
node returns "not found": the round trip fails for this network state and
start-node pair. -/
theorem C8_counterexample :
    ((netTwo.iterative_store idA [1] [2]).iterative_find_value idB [1]).2 = none ∧
    ((netTwo.iterative_store idA [1] [2]).find_value idA idA [1]).2 =
      some (some [2]) := by decide

/-- Claim C8, amended to the spec's own concrete scenario (the only reach
the code guarantees): in the three-node bootstrap of `main` — node 0
learns nodes 1 and 2, node 1 learns node 2 via pings — an
`iterative_store` of "hello" ↦ "world" issued from node 1 followed
immediately by `iterative_find_value` for "hello" from node 2 returns
"world". -/
theorem C8_store_then_find_value_scenario :
    (netScenario2.iterative_find_value idN2 keyHello).2 = some valWorld := by decide

/-! ## Progress-check characterization (C5) -/

theorem findNodeRounds_batch_empty (start target : NodeId) (fuel : Nat)
    (st : LookupState) (hb : selectBatch st.queried st.shortlist = []) :
    findNodeRounds start target (fuel + 1) st = (st, 0) := by
  unfold findNodeRounds
  dsimp only
  rw [if_pos hb]

theorem findNodeRounds_succ_eq (start target : NodeId) (fuel : Nat) (st : LookupState) :
    findNodeRounds start target (fuel + 1) st =
      if selectBatch st.queried st.shortlist = [] then (st, 0)
      else
        if (runBatch start target st (selectBatch st.queried st.shortlist) false).2 = true then
          ((findNodeRounds start target fuel
              (runBatch start target st (selectBatch st.queried st.shortlist) false).1).1,
           (findNodeRounds start target fuel
              (runBatch start target st (selectBatch st.queried st.shortlist) false).1).2 + 1)
        else ((runBatch start target st (selectBatch st.queried st.shortlist) false).1, 1) :=
  rfl

theorem findNodeRounds_succ_of_progress (start target : NodeId) (fuel : Nat)
    (st : LookupState) (hb : selectBatch st.queried st.shortlist ≠ [])
    (hp : (runBatch start target st (selectBatch st.queried st.shortlist) false).2 = true) :
    findNodeRounds start target (fuel + 1) st =
      ((findNodeRounds start target fuel
          (runBatch start target st (selectBatch st.queried st.shortlist) false).1).1,
       (findNodeRounds start target fuel
          (runBatch start target st (selectBatch st.queried st.shortlist) false).1).2 + 1) := by
  rw [findNodeRounds_succ_eq, if_neg hb, if_pos hp]

theorem findNodeRounds_succ_of_no_progress (start target : NodeId) (fuel : Nat)
    (st : LookupState) (hb : selectBatch st.queried st.shortlist ≠ [])
    (hp : (runBatch start target st (selectBatch st.queried st.shortlist) false).2 = false) :
    findNodeRounds start target (fuel + 1) st =
      ((runBatch start target st (selectBatch st.queried st.shortlist) false).1, 1) := by
  rw [findNodeRounds_succ_eq, if_neg hb]
  rw [hp]
  simp

theorem findNodeRounds_pos_iff (start target : NodeId) (fuel : Nat) (st : LookupState) :
    1 ≤ (findNodeRounds start target (fuel + 1) st).2 ↔
      selectBatch st.queried st.shortlist ≠ [] := by
  by_cases hb : selectBatch st.queried st.shortlist = []
  · rw [findNodeRounds_batch_empty start target fuel st hb]
    simp [hb]
  · constructor
    · intro _; exact hb
    · intro _
      cases hpb : (runBatch start target st (selectBatch st.queried st.shortlist) false).2
      · rw [findNodeRounds_succ_of_no_progress start target fuel st hb hpb]
      · rw [findNodeRounds_succ_of_progress start target fuel st hb hpb]
        simp

/-- Claim C5, amended: a round with remaining candidates proceeds to a
further RPC-issuing round iff the round's `any_progress` flag is set —
i.e. iff at some step the re-sort/re-truncation of the post-merge
shortlist changed that intermediate list — and there remain unqueried
candidates afterwards. This is *not* the spec's "sorted shortlist changed
across the entire round": new entries appended in sorted position without
displacement set no flag (see the counterexample). -/
theorem C5_progress_flag_characterization :
    ∀ (start target : NodeId) (st : LookupState) (fuel : Nat),
      selectBatch st.queried st.shortlist ≠ [] →
      (2 ≤ (findNodeRounds start target (fuel + 2) st).2 ↔
        ((runBatch start target st (selectBatch st.queried st.shortlist) false).2 = true ∧
          selectBatch
            (runBatch start target st (selectBatch st.queried st.shortlist) false).1.queried
            (runBatch start target st (selectBatch st.queried st.shortlist) false).1.shortlist
            ≠ [])) := by
  intro start target st fuel hb
  cases hpb : (runBatch start target st (selectBatch st.queried st.shortlist) false).2
  · rw [findNodeRounds_succ_of_no_progress start target (fuel + 1) st hb hpb]
    simp
  · rw [findNodeRounds_succ_of_progress start target (fuel + 1) st hb hpb]
    simp only [true_and]
    rw [← findNodeRounds_pos_iff start target fuel
      (runBatch start target st (selectBatch st.queried st.shortlist) false).1]
    omega

/-- Counterexample to C5 as stated: in `netC5`, the first round of
`iterative_find_node` from `idA` toward the all-zero target changes the
sorted shortlist (it grows from `[idA, idB]` to `[idA, idB, idC]`) and
leaves `idC` unqueried, yet the lookup stops after that single round: a
changed sorted shortlist does not make the lookup proceed. -/
theorem C5_counterexample :
    (netC5.iterative_find_node_full idA idZ).2 = 1 ∧
    (netC5.iterative_find_node_full idA idZ).1.shortlist ≠
      (lookupInit netC5 idA idZ).shortlist ∧
    selectBatch (netC5.iterative_find_node_full idA idZ).1.queried
      (netC5.iterative_find_node_full idA idZ).1.shortlist ≠ [] := by decide

/-- Witness for C5: the characterization instantiated at the one-node
network, whose single round sets no progress flag. -/
theorem C5_progress_flag_characterization_witness :
    2 ≤ (findNodeRounds idA idZ (6 + 2) (lookupInit netSingle idA idZ)).2 ↔
      ((runBatch idA idZ (lookupInit netSingle idA idZ)
          (selectBatch (lookupInit netSingle idA idZ).queried
            (lookupInit netSingle idA idZ).shortlist) false).2 = true ∧
        selectBatch
          (runBatch idA idZ (lookupInit netSingle idA idZ)
            (selectBatch (lookupInit netSingle idA idZ).queried
              (lookupInit netSingle idA idZ).shortlist) false).1.queried
          (runBatch idA idZ (lookupInit netSingle idA idZ)
            (selectBatch (lookupInit netSingle idA idZ).queried
              (lookupInit netSingle idA idZ).shortlist) false).1.shortlist
          ≠ []) :=
  C5_progress_flag_characterization idA idZ (lookupInit netSingle idA idZ) 6 (by decide)

/-- Counterexample to C6 as stated: an RPC whose caller equals the
handling node's own id is tolerated silently — `rpc_ping` returns normally
with the node unchanged instead of failing — and the core's own iterative
lookup does issue such a call: the lookup from `idA` in the one-node
network marks `idA` itself as queried, i.e. it sends `find_node` with
caller `idA` to the node whose id is `idA`. -/
theorem C6_counterexample :
    nEmpty.rpc_ping nEmpty.id = (nEmpty, true) ∧
    idA ∈ (netSingle.iterative_find_node_full idA idZ).1.queried := by decide

/-- Claim C6, amended: an RPC whose caller equals the handling node's own
id is a silent no-op on the routing table (the RPC otherwise proceeds
normally and returns an ordinary result), and such self-calls are in fact
issued by the core's own iterative lookup whenever the start node appears
in its own shortlist. -/
theorem C6_self_rpcs_tolerated :
    (∀ (n : Node) (caller : NodeId) (key : List Nat) (target : NodeId),
      caller = n.id →
      n.track_peer caller = n ∧
      n.rpc_ping caller = (n, true) ∧
      (n.rpc_find_value caller key).1 = n ∧
      (n.rpc_find_node caller target).1 = n) ∧
    idA ∈ (netSingle.iterative_find_node_full idA idZ).1.queried := by
  constructor
  · intro n caller key target h
    have htrack : n.track_peer caller = n := by
      unfold Node.track_peer
      rw [if_pos h]
    refine ⟨htrack, ?_, ?_, ?_⟩
    · show (n.track_peer caller, true) = (n, true)
      rw [htrack]
    · show n.track_peer caller = n
      exact htrack
    · show n.track_peer caller = n
      exact htrack
  · decide

/-- Witness for C6: the self-call tolerance at a concrete node. -/
theorem C6_self_rpcs_tolerated_witness :
    nEmpty.track_peer nEmpty.id = nEmpty ∧
    nEmpty.rpc_ping nEmpty.id = (nEmpty, true) ∧
    (nEmpty.rpc_find_value nEmpty.id [1]).1 = nEmpty ∧
    (nEmpty.rpc_find_node nEmpty.id idB).1 = nEmpty :=
  C6_self_rpcs_tolerated.1 nEmpty nEmpty.id [1] idB rfl
